import Mathlib

/-!
Verification of the AIPPT backend core: the outline transformer
(src/backend/services/ai_service.py flatten_outline,
src/backend/controllers/project_controller.py _reconstruct_outline_from_pages),
the background task runner (src/backend/services/task_manager.py), and the
page-image version ledger (src/backend/services/firestore_service.py).
The Python code is shallowly embedded as pure Lean functions; AI and storage
calls are abstracted into their observable outcomes.
-/

set_option autoImplicit false

/-- The outline content of one page: a title and its bullet points.
Mirrors the `{'title': ..., 'points': [...]}` dicts used throughout
`project_controller.py` (page creation) and `ai_service.py`. -/
structure PageContent where
  title : String
  points : List String
deriving DecidableEq, Repr

/-- One item of a nested outline, as produced by outline generation and
consumed by `flatten_outline`: either a part `{"part": name, "pages": [...]}`
or a bare page dict. -/
inductive OutlineNode where
  | part (name : String) (pages : List PageContent)
  | page (content : PageContent)
deriving DecidableEq, Repr

/-- One stored page as the reconstruction walks it (ordered by
`order_index`): its `part` field (nullable) and its `outline_content`
(nullable).  Page creation in `project_controller.py` stores
`part := page_data.get('part')` and
`outline_content := {'title': ..., 'points': ...}` for each flattened page. -/
structure PageSlot where
  part : Option String
  content : Option PageContent
deriving DecidableEq, Repr

/-- `ai_service.flatten_outline`: a `{"part", "pages"}` item expands to its
pages, each stamped with the part name; a bare page emits itself with no
part, in order. -/
def flatten_outline : List OutlineNode → List PageSlot
  | [] => []
  | OutlineNode.part name ps :: rest =>
      ps.map (fun p => { part := some name, content := some p }) ++ flatten_outline rest
  | OutlineNode.page c :: rest =>
      { part := none, content := some c } :: flatten_outline rest

/-- Python truthiness of a page's `part` field: `if page.part:` is taken
for a non-null, non-empty part name. -/
def partTruthy : Option String → Bool
  | none => false
  | some s => decide (s ≠ "")

/-- Flushing the currently open part group, as done at the end of
`_reconstruct_outline_from_pages` and before a bare page. -/
def closeOpenPart (curPart : Option String) (curPages : List PageContent) :
    List OutlineNode :=
  match curPart with
  | some cn => [OutlineNode.part cn curPages]
  | none => []

/-- The loop of `_reconstruct_outline_from_pages` (identical to the inline
reconstruction in `page_controller.generate_page_image`), with state
`(current_part, current_part_pages)`:
a page with falsy `outline_content` is skipped; a page with a truthy `part`
closes the open group only when the name differs and otherwise accumulates;
a page with a falsy `part` closes the open group and is emitted bare. -/
def reconstructAux (curPart : Option String) (curPages : List PageContent) :
    List PageSlot → List OutlineNode
  | [] => closeOpenPart curPart curPages
  | s :: rest =>
    match s.content with
    | none => reconstructAux curPart curPages rest
    | some c =>
      if partTruthy s.part then
        match s.part, curPart with
        | some name, some cn =>
          if cn ≠ name then
            OutlineNode.part cn curPages :: reconstructAux (some name) ([] ++ [c]) rest
          else
            reconstructAux (some name) (curPages ++ [c]) rest
        | some name, none =>
            reconstructAux (some name) (curPages ++ [c]) rest
        | none, _ => closeOpenPart curPart curPages ++
            (OutlineNode.page c :: reconstructAux none [] rest)
      else
        closeOpenPart curPart curPages ++
          (OutlineNode.page c :: reconstructAux none [] rest)

/-- `project_controller._reconstruct_outline_from_pages`: rebuild the nested
outline from the flat, `order_index`-ordered page list. -/
def reconstruct_outline_from_pages (pages : List PageSlot) : List OutlineNode :=
  reconstructAux none [] pages

/-- Every Part group of an outline is non-empty (an empty part flattens to
nothing and leaves no trace to reconstruct). -/
def partsNonEmpty : List OutlineNode → Bool
  | [] => true
  | OutlineNode.part _ ps :: rest => !ps.isEmpty && partsNonEmpty rest
  | OutlineNode.page _ :: rest => partsNonEmpty rest

/-- Every part name of an outline is a non-empty string (an empty name is
falsy in `if page.part:` and is treated as no part). -/
def partNamesTruthy : List OutlineNode → Bool
  | [] => true
  | OutlineNode.part n _ :: rest => decide (n ≠ "") && partNamesTruthy rest
  | OutlineNode.page _ :: rest => partNamesTruthy rest

/-- No two directly consecutive Part groups of the outline share a name
(the reconstruction would merge them into a single group). -/
def noAdjacentSameParts : List OutlineNode → Bool
  | OutlineNode.part n _ :: OutlineNode.part m qs :: rest =>
      decide (n ≠ m) && noAdjacentSameParts (OutlineNode.part m qs :: rest)
  | _ :: rest => noAdjacentSameParts rest
  | [] => true

/-- The head of the outline is not a Part group named `cn` (used to close a
still-open group correctly). -/
def headPartNameNe (cn : String) : List OutlineNode → Prop
  | OutlineNode.part m _ :: _ => m ≠ cn
  | _ => True

/-- The hypothesis of the round-trip claim, as stated: a part name never
appears in two non-consecutive groups — any two Part groups sharing a name
are directly adjacent in the outline. -/
def noNonconsecutiveRepeat (o : List OutlineNode) : Bool :=
  o.enum.all fun p =>
    o.enum.all fun q =>
      match p.2, q.2 with
      | OutlineNode.part n _, OutlineNode.part m _ =>
          !(decide (n = m) && decide (p.1 < q.1) && decide (p.1 + 1 ≠ q.1))
      | _, _ => true

/-- Spec-side grouping helper: whether the next page continues the current
run of part `name`. -/
def slotContinues (name : String) : List PageSlot → Bool
  | s2 :: _ => s2.part = some name
  | [] => false

/-- Spec-side grouping helper: the group contributed by one page of a part
run, absorbing the Part group the rest of the run has already formed when
the run continues with the next page. -/
def specMerge (name : String) (c : PageContent) (keepsRunning : Bool)
    (tailGroups : List OutlineNode) : List OutlineNode :=
  if keepsRunning then
    match tailGroups with
    | OutlineNode.part _ ps :: gs => OutlineNode.part name (c :: ps) :: gs
    | gs => OutlineNode.part name [c] :: gs
  else OutlineNode.part name [c] :: tailGroups

/-- The grouping rule in the words of the claim, independent of the code,
for comparison with `reconstruct_outline_from_pages`: walking the pages in
order, maximal runs of consecutive pages sharing the same non-null part
name accumulate into one Part group, a page with no part is emitted bare,
and a part name that reappears non-consecutively starts a new, separate
group. -/
def groupRunsSpec : List PageSlot → List OutlineNode
  | [] => []
  | s :: rest =>
    match s.content with
    | none => groupRunsSpec rest
    | some c =>
      match s.part with
      | none => OutlineNode.page c :: groupRunsSpec rest
      | some name =>
          specMerge name c (slotContinues name rest) (groupRunsSpec rest)

/-! ## Task runner model (src/backend/services/task_manager.py)

A background task's interaction with the outside world is abstracted into
its observable outcome: each per-page unit of work either succeeds or fails
(the worker function catches its own exceptions and returns
`(page_id, result, error)`), and `as_completed` delivers the unit results
to the single fan-in loop in an arbitrary order, modelled by taking the
completion-ordered result list as the input. -/

/-- The `progress` dict written to the task record. -/
structure Progress where
  total : Nat
  completed : Nat
  failed : Nat
deriving DecidableEq, Repr

/-- One iteration of the fan-in loop over `as_completed(futures)`:
on an error result `failed += 1`, otherwise `completed += 1`. -/
def fanOutStep (p : Progress) (ok : Bool) : Progress :=
  if ok then { p with completed := p.completed + 1 }
  else { p with failed := p.failed + 1 }

/-- The successive progress snapshots written by
`firestore_service.update_task(task_id, {'progress': progress})` at the end
of every fan-in loop iteration, given results in completion order. -/
def fanOutSnapshots (p : Progress) : List Bool → List Progress
  | [] => []
  | ok :: rest =>
      fanOutStep p ok :: fanOutSnapshots (fanOutStep p ok) rest

/-- The progress value after the fan-in loop has consumed all results. -/
def fanOutFinal (p : Progress) (oks : List Bool) : Progress :=
  oks.foldl fanOutStep p

/-- Task record status values. -/
inductive TaskStatus where
  | PENDING
  | PROCESSING
  | COMPLETED
  | FAILED
deriving DecidableEq, Repr

abbrev PageId := String

/-- The observable effect of one run of a batch task: the terminal task
status, the captured error message, whether `completed_at` was written, the
progress snapshots written to the task record (in order), the per-page
status writes performed by the fan-in loop (in completion order), and the
project-status update performed after the batch, if any. -/
structure TaskRun where
  taskStatus : TaskStatus
  errorMessage : Option String
  completedAtSet : Bool
  snapshots : List Progress
  pageWrites : List (PageId × String)
  projectStatus : Option String
deriving DecidableEq, Repr

/-- A scheduler models `concurrent.futures.as_completed`: it reorders the
list of submitted unit results into the order in which the futures
complete.  A run of the real code corresponds to a scheduler whose output
is a permutation of its input (hypothesis `FairSchedule` below). -/
abbrev Schedule := List (PageId × Bool) → List (PageId × Bool)

/-- A schedule that delivers exactly the submitted unit results, once each,
in some order — what `as_completed` guarantees. -/
def FairSchedule (sched : Schedule) (units : List (PageId × Bool)) : Prop :=
  List.Perm (sched units) units

/-- The shared tail of both batch tasks: write the initial progress
`{total: len(pages), completed: 0, failed: 0}`, run the fan-in loop over
the unit results in completion order (writing the page status and the
updated progress after each), mark the task COMPLETED, and advance the
project status only when `failed == 0` at the end. -/
def runBatchLoop (total : Nat) (resultsOrdered : List (PageId × Bool))
    (okPageStatus doneProjectStatus : String) : TaskRun :=
  let init : Progress := { total := total, completed := 0, failed := 0 }
  let oks := resultsOrdered.map Prod.snd
  { taskStatus := TaskStatus.COMPLETED
    errorMessage := none
    completedAtSet := true
    snapshots := init :: fanOutSnapshots init oks
    pageWrites := resultsOrdered.map (fun r =>
      (r.1, if r.2 then okPageStatus else "FAILED"))
    projectStatus :=
      if (fanOutFinal init oks).failed = 0 then some doneProjectStatus
      else none }

/-- `task_manager.generate_descriptions_task`.  `pages` are the stored page
ids from `firestore_service.get_pages` in `order_index` order;
`pagesData` holds, per entry of `ai_service.flatten_outline(outline)`,
whether `generate_single_desc` on the unit built from that entry succeeds
(that worker catches its own exceptions and returns an error triple).
When `len(pages) != len(pages_data)`, `ValueError("Page count mismatch")`
is raised before the progress dict is created, and the except-handler
marks the task FAILED with the message and a `completed_at`.  Otherwise the
futures are built by zipping `pages` with `pages_data`, delivered by
`sched` in completion order, and consumed by the fan-in loop
(`DESCRIPTION_GENERATED` on success, `FAILED` on error); the project
advances to `DESCRIPTIONS_GENERATED` only when `failed == 0`. -/
def generate_descriptions_task (pages : List PageId) (pagesData : List Bool)
    (sched : Schedule) : TaskRun :=
  if pages.length ≠ pagesData.length then
    { taskStatus := TaskStatus.FAILED
      errorMessage := some "Page count mismatch"
      completedAtSet := true
      snapshots := []
      pageWrites := []
      projectStatus := none }
  else
    runBatchLoop pages.length (sched (pages.zip pagesData))
      "DESCRIPTION_GENERATED" "DESCRIPTIONS_GENERATED"

/-- `task_manager.generate_images_task`.  Unlike the descriptions task there
is no page-count check: the futures are built directly by zipping `pages`
with the flattened outline entries (so only `min` of the two lengths many
units are submitted), while the progress total is `len(pages)`.  A missing
template raises `ValueError("No template image found for project")` before
the progress dict is created.  Page writes are `COMPLETED` on success and
`FAILED` on error, and the project advances to `COMPLETED` only when
`failed == 0`. -/
def generate_images_task (pages : List PageId) (pagesData : List Bool)
    (hasTemplate : Bool) (sched : Schedule) : TaskRun :=
  if !hasTemplate then
    { taskStatus := TaskStatus.FAILED
      errorMessage := some "No template image found for project"
      completedAtSet := true
      snapshots := []
      pageWrites := []
      projectStatus := none }
  else
    runBatchLoop pages.length (sched (pages.zip pagesData))
      "COMPLETED" "COMPLETED"

/-- Number of successful unit outcomes: what `completed` counts. -/
def countTrue (oks : List Bool) : Nat := oks.countP (fun b => b)

/-- Number of failed unit outcomes: what `failed` counts. -/
def countFalse (oks : List Bool) : Nat := oks.countP (fun b => !b)

/-! ## Version ledger model (src/backend/services/firestore_service.py)

The `page_image_versions` Firestore collection is modelled as the list of
its documents in creation order.  Document writes keyed by id (`set`) and
the batched `update` semantics of the Firestore client follow the spec of
the persistence collaborator (section 6: `Update` on a non-existent id
fails with NotFound; section 5: a batch is applied atomically). -/

/-- One document of the `page_image_versions` collection, as written by
`generate_single_page_image_task` / `edit_page_image_task`. -/
structure VersionRec where
  id : String
  page_id : String
  user_id : String
  version_number : Nat
  image_path : String
  is_current : Bool
deriving DecidableEq, Repr

/-- The `page_image_versions` collection: documents in creation order. -/
abbrev VersionStore := List VersionRec

/-- The `where page_id == ... and user_id == ...` filter used by both
`list_page_image_versions` and `set_current_page_image_version`. -/
def versionMatches (page_id user_id : String) (r : VersionRec) : Bool :=
  r.page_id = page_id && r.user_id = user_id

/-- Insertion step for ordering version records by `version_number`
descending, the `order_by(..., DESCENDING)` of the listing query. -/
def insertDesc (r : VersionRec) : List VersionRec → List VersionRec
  | [] => [r]
  | x :: xs =>
      if x.version_number ≤ r.version_number then r :: x :: xs
      else x :: insertDesc r xs

/-- Order version records by `version_number` descending (most recent
first). -/
def sortByVersionDesc (l : List VersionRec) : List VersionRec :=
  l.foldr insertDesc []

/-- `firestore_service.list_page_image_versions`: the documents whose
`page_id` and `user_id` match, ordered by `version_number` descending. -/
def list_page_image_versions (store : VersionStore)
    (page_id user_id : String) : List VersionRec :=
  sortByVersionDesc (store.filter (versionMatches page_id user_id))

/-- `firestore_service.create_page_image_version`: a keyed document `set`,
which overwrites the document with that id when it exists and otherwise
creates it.  The returned version id is `data.id`. -/
def create_page_image_version (store : VersionStore) (data : VersionRec) :
    VersionStore :=
  if store.any (fun x => x.id = data.id) then
    store.map (fun x => if x.id = data.id then data else x)
  else store ++ [data]

/-- `firestore_service.set_current_page_image_version`: one batched write
that updates every version matching the page and user to
`is_current = False` and then updates the `version_id` document to
`is_current = True`; batch writes apply in order.  Modelled from the spec:
the persistence collaborator's update of a non-existent document id fails
with NotFound and the batch is atomic, so when no document has id
`version_id` the whole commit fails and nothing is written. -/
def set_current_page_image_version (store : VersionStore)
    (page_id version_id user_id : String) : Except String VersionStore :=
  if store.any (fun r => r.id = version_id) then
    Except.ok (store.map (fun r =>
      if r.id = version_id then { r with is_current := true }
      else if versionMatches page_id user_id r then { r with is_current := false }
      else r))
  else Except.error "NotFound"

/-- The version-ledger steps of `generate_single_page_image_task` (and,
identically, `edit_page_image_task`): list the page's versions, create a
new version numbered `len(versions) + 1` with `is_current = True`, then
make it current. -/
def createVersionAndSetCurrent (store : VersionStore)
    (page_id user_id new_id image_path : String) : Except String VersionStore :=
  let versions := list_page_image_versions store page_id user_id
  let version_number := versions.length + 1
  let store2 := create_page_image_version store
    { id := new_id, page_id := page_id, user_id := user_id,
      version_number := version_number, image_path := image_path,
      is_current := true }
  set_current_page_image_version store2 page_id new_id user_id

/-- N sequential generation tasks for one page: each runs
`createVersionAndSetCurrent` with a fresh version id and the produced image
path. -/
def runVersionCycles (page_id user_id : String) :
    List (String × String) → VersionStore → Except String VersionStore
  | [], store => Except.ok store
  | (new_id, path) :: rest, store =>
      match createVersionAndSetCurrent store page_id user_id new_id path with
      | Except.ok store2 => runVersionCycles page_id user_id rest store2
      | Except.error e => Except.error e

/-- The ledger contents that N successful generation cycles (numbered from
`start`) leave behind for one page: the k-th record carries version number
`start + k + 1` and only the final record is current. -/
def expectedVersions (page_id user_id : String) (start : Nat) :
    List (String × String) → VersionStore
  | [] => []
  | (new_id, path) :: rest =>
      { id := new_id, page_id := page_id, user_id := user_id,
        version_number := start + 1, image_path := path,
        is_current := decide (rest = []) } ::
      expectedVersions page_id user_id (start + 1) rest

/-! ## Theorems -/

/-! ### Fan-out progress lemmas -/

theorem fanOutStep_total (p : Progress) (ok : Bool) :
    (fanOutStep p ok).total = p.total := by
  cases ok <;> rfl

theorem fanOutStep_sum (p : Progress) (ok : Bool) :
    (fanOutStep p ok).completed + (fanOutStep p ok).failed =
      p.completed + p.failed + 1 := by
  cases ok <;> simp only [fanOutStep, if_true, if_false, Bool.false_eq_true] <;> omega

theorem mem_fanOutSnapshots (oks : List Bool) :
    ∀ (p : Progress), ∀ s ∈ fanOutSnapshots p oks,
      s.total = p.total ∧
      s.completed + s.failed ≤ p.completed + p.failed + oks.length := by
  induction oks with
  | nil =>
      intro p s hs
      simp [fanOutSnapshots] at hs
  | cons ok rest ih =>
      intro p s hs
      simp only [fanOutSnapshots, List.mem_cons] at hs
      rcases hs with rfl | hs
      · refine ⟨fanOutStep_total p ok, ?_⟩
        have h := fanOutStep_sum p ok
        simp only [List.length_cons]
        omega
      · obtain ⟨h1, h2⟩ := ih (fanOutStep p ok) s hs
        refine ⟨h1.trans (fanOutStep_total p ok), ?_⟩
        have h3 := fanOutStep_sum p ok
        simp only [List.length_cons]
        omega

theorem fanOutSnapshots_get (oks : List Bool) :
    ∀ (p : Progress) (i : Nat) (h : i < (fanOutSnapshots p oks).length),
      ((fanOutSnapshots p oks).get ⟨i, h⟩).completed +
        ((fanOutSnapshots p oks).get ⟨i, h⟩).failed =
        p.completed + p.failed + i + 1 := by
  induction oks with
  | nil =>
      intro p i h
      simp [fanOutSnapshots] at h
  | cons ok rest ih =>
      intro p i h
      cases i with
      | zero =>
          simpa [fanOutSnapshots] using fanOutStep_sum p ok
      | succ j =>
          have hj : j < (fanOutSnapshots (fanOutStep p ok) rest).length := by
            simpa [fanOutSnapshots] using h
          have := ih (fanOutStep p ok) j hj
          have h3 := fanOutStep_sum p ok
          simp only [fanOutSnapshots, List.get_cons_succ]
          omega

theorem fanOutFinal_eq (oks : List Bool) :
    ∀ p : Progress, fanOutFinal p oks =
      { total := p.total, completed := p.completed + countTrue oks,
        failed := p.failed + countFalse oks } := by
  induction oks with
  | nil =>
      intro p
      simp [fanOutFinal, countTrue, countFalse]
  | cons ok rest ih =>
      intro p
      have hstep : fanOutFinal p (ok :: rest) = fanOutFinal (fanOutStep p ok) rest := rfl
      rw [hstep, ih]
      cases p with
      | mk t c f =>
          cases ok <;>
            simp [fanOutStep, countTrue, countFalse, List.countP_cons,
              Progress.mk.injEq] <;>
            omega

theorem snapshots_getLast (oks : List Bool) :
    ∀ p : Progress,
      (p :: fanOutSnapshots p oks).getLast? = some (fanOutFinal p oks) := by
  induction oks with
  | nil =>
      intro p
      rfl
  | cons ok rest ih =>
      intro p
      have : (p :: fanOutSnapshots p (ok :: rest)) =
          p :: fanOutStep p ok :: fanOutSnapshots (fanOutStep p ok) rest := rfl
      rw [this, List.getLast?_cons_cons]
      exact ih (fanOutStep p ok)

/-! ### Claim theorems for the progress invariants -/

theorem runBatchLoop_snapshots_bound (total : Nat)
    (results : List (PageId × Bool)) (okS doneS : String)
    (hlen : results.length ≤ total) :
    ∀ s ∈ (runBatchLoop total results okS doneS).snapshots,
      s.completed ≤ s.total ∧ s.failed ≤ s.total ∧
      s.completed + s.failed ≤ s.total ∧ s.total = total := by
  intro s hs
  simp only [runBatchLoop, List.mem_cons] at hs
  rcases hs with rfl | hs
  · refine ⟨?_, ?_, ?_, rfl⟩ <;> simp
  · obtain ⟨h1, h2⟩ :=
      mem_fanOutSnapshots (results.map Prod.snd)
        { total := total, completed := 0, failed := 0 } s hs
    have h1' : s.total = total := h1
    have h2' : s.completed + s.failed ≤ 0 + 0 + results.length := by
      simpa using h2
    omega

/-- C1: in every execution of the descriptions or images batch task, every
progress snapshot written to the task record satisfies
`completed ≤ total`, `failed ≤ total` and `completed + failed ≤ total`
(all counters are naturals, so nonnegative), and `total` equals the number
of stored pages in every snapshot, fixed at job start. -/
theorem progress_snapshot_invariant
    (pagesD : List PageId) (dataD : List Bool) (schedD : Schedule)
    (hD : FairSchedule schedD (pagesD.zip dataD))
    (pagesI : List PageId) (dataI : List Bool) (tI : Bool) (schedI : Schedule)
    (hI : FairSchedule schedI (pagesI.zip dataI)) :
    (∀ s ∈ (generate_descriptions_task pagesD dataD schedD).snapshots,
      s.completed ≤ s.total ∧ s.failed ≤ s.total ∧
      s.completed + s.failed ≤ s.total ∧ s.total = pagesD.length) ∧
    (∀ s ∈ (generate_images_task pagesI dataI tI schedI).snapshots,
      s.completed ≤ s.total ∧ s.failed ≤ s.total ∧
      s.completed + s.failed ≤ s.total ∧ s.total = pagesI.length) := by
  constructor
  · intro s hs
    by_cases hlen : pagesD.length = dataD.length
    · have hbound : (schedD (pagesD.zip dataD)).length ≤ pagesD.length := by
        rw [hD.length_eq, List.length_zip]
        exact inf_le_left
      refine runBatchLoop_snapshots_bound pagesD.length
        (schedD (pagesD.zip dataD)) "DESCRIPTION_GENERATED"
        "DESCRIPTIONS_GENERATED" hbound s ?_
      simpa [generate_descriptions_task, hlen] using hs
    · simp [generate_descriptions_task, hlen] at hs
  · intro s hs
    cases tI with
    | false => simp [generate_images_task] at hs
    | true =>
        have hbound : (schedI (pagesI.zip dataI)).length ≤ pagesI.length := by
          rw [hI.length_eq, List.length_zip]
          exact inf_le_left
        refine runBatchLoop_snapshots_bound pagesI.length
          (schedI (pagesI.zip dataI)) "COMPLETED" "COMPLETED" hbound s ?_
        simpa [generate_images_task] using hs

theorem progress_snapshot_invariant_witness :
    (∀ s ∈ (generate_descriptions_task ["a", "b"] [true, false] id).snapshots,
      s.completed ≤ s.total ∧ s.failed ≤ s.total ∧
      s.completed + s.failed ≤ s.total ∧ s.total = 2) ∧
    (∀ s ∈ (generate_images_task ["a", "b", "c"] [true] true id).snapshots,
      s.completed ≤ s.total ∧ s.failed ≤ s.total ∧
      s.completed + s.failed ≤ s.total ∧ s.total = 3) :=
  progress_snapshot_invariant ["a", "b"] [true, false] id (List.Perm.refl _)
    ["a", "b", "c"] [true] true id (List.Perm.refl _)

theorem generate_descriptions_task_run (pages : List PageId)
    (pagesData : List Bool) (sched : Schedule)
    (hlen : pages.length = pagesData.length) :
    generate_descriptions_task pages pagesData sched =
      runBatchLoop pages.length (sched (pages.zip pagesData))
        "DESCRIPTION_GENERATED" "DESCRIPTIONS_GENERATED" := by
  simp [generate_descriptions_task, hlen]

theorem generate_images_task_run (pages : List PageId)
    (pagesData : List Bool) (sched : Schedule) :
    generate_images_task pages pagesData true sched =
      runBatchLoop pages.length (sched (pages.zip pagesData))
        "COMPLETED" "COMPLETED" := by
  simp [generate_images_task]

theorem runBatchLoop_taskStatus (total : Nat)
    (rs : List (PageId × Bool)) (okS doneS : String) :
    (runBatchLoop total rs okS doneS).taskStatus = TaskStatus.COMPLETED := rfl

theorem runBatchLoop_pageWrites (total : Nat)
    (rs : List (PageId × Bool)) (okS doneS : String) :
    (runBatchLoop total rs okS doneS).pageWrites =
      rs.map (fun r => (r.1, if r.2 then okS else "FAILED")) := rfl

theorem runBatchLoop_snapshots (total : Nat)
    (rs : List (PageId × Bool)) (okS doneS : String) :
    (runBatchLoop total rs okS doneS).snapshots =
      { total := total, completed := 0, failed := 0 } ::
        fanOutSnapshots { total := total, completed := 0, failed := 0 }
          (rs.map Prod.snd) := rfl

theorem runBatchLoop_projectStatus (total : Nat)
    (rs : List (PageId × Bool)) (okS doneS : String) :
    (runBatchLoop total rs okS doneS).projectStatus =
      if (fanOutFinal { total := total, completed := 0, failed := 0 }
            (rs.map Prod.snd)).failed = 0
      then some doneS else none := rfl

theorem runBatchLoop_getLast (total : Nat)
    (rs : List (PageId × Bool)) (okS doneS : String) :
    (runBatchLoop total rs okS doneS).snapshots.getLast? =
      some { total := total, completed := countTrue (rs.map Prod.snd),
             failed := countFalse (rs.map Prod.snd) } := by
  rw [runBatchLoop_snapshots, snapshots_getLast, fanOutFinal_eq]
  simp

theorem sched_countP (pages : List PageId) (pagesData : List Bool)
    (sched : Schedule) (hs : FairSchedule sched (pages.zip pagesData))
    (p : Bool → Bool) :
    ((sched (pages.zip pagesData)).map Prod.snd).countP p =
      ((pages.zip pagesData).map Prod.snd).countP p := by
  rw [List.countP_map, List.countP_map]
  exact hs.countP_eq _

/-- C4: in the descriptions fan-out, each unit's exception is caught at that
unit's boundary (its page is written FAILED, the failed counter counts it),
`completed` counts exactly the successful units, every sibling unit still
runs to completion and gets its own page write, and the batch as a whole
still finishes (task COMPLETED) — no single unit's failure aborts it.  The
final progress counts successes and failures exactly. -/
theorem failure_isolation (pages : List PageId) (pagesData : List Bool)
    (sched : Schedule) (hlen : pages.length = pagesData.length)
    (hs : FairSchedule sched (pages.zip pagesData)) :
    (generate_descriptions_task pages pagesData sched).taskStatus =
      TaskStatus.COMPLETED ∧
    (generate_descriptions_task pages pagesData sched).pageWrites.length =
      pages.length ∧
    (∀ r ∈ pages.zip pagesData,
      (r.1, if r.2 then "DESCRIPTION_GENERATED" else "FAILED") ∈
        (generate_descriptions_task pages pagesData sched).pageWrites) ∧
    (generate_descriptions_task pages pagesData sched).snapshots.getLast? =
      some { total := pages.length, completed := countTrue pagesData,
             failed := countFalse pagesData } := by
  have hsnd : (pages.zip pagesData).map Prod.snd = pagesData :=
    List.map_snd_zip pages pagesData (le_of_eq hlen.symm)
  rw [generate_descriptions_task_run pages pagesData sched hlen]
  refine ⟨runBatchLoop_taskStatus _ _ _ _, ?_, ?_, ?_⟩
  · rw [runBatchLoop_pageWrites, List.length_map, hs.length_eq,
      List.length_zip, hlen, inf_idem]
  · intro r hr
    rw [runBatchLoop_pageWrites]
    exact List.mem_map_of_mem _ (hs.mem_iff.mpr hr)
  · rw [runBatchLoop_getLast]
    have hT := sched_countP pages pagesData sched hs (fun b => b)
    have hF := sched_countP pages pagesData sched hs (fun b => !b)
    rw [hsnd] at hT hF
    simp only [countTrue, countFalse, hT, hF]

theorem failure_isolation_witness :
    (generate_descriptions_task ["u1", "u2", "u3", "u4", "u5"]
        [true, true, false, true, true] id).taskStatus =
      TaskStatus.COMPLETED ∧
    (generate_descriptions_task ["u1", "u2", "u3", "u4", "u5"]
        [true, true, false, true, true] id).pageWrites.length = 5 ∧
    (∀ r ∈ List.zip ["u1", "u2", "u3", "u4", "u5"]
        [true, true, false, true, true],
      (r.1, if r.2 then "DESCRIPTION_GENERATED" else "FAILED") ∈
        (generate_descriptions_task ["u1", "u2", "u3", "u4", "u5"]
          [true, true, false, true, true] id).pageWrites) ∧
    (generate_descriptions_task ["u1", "u2", "u3", "u4", "u5"]
        [true, true, false, true, true] id).snapshots.getLast? =
      some { total := 5, completed := 4, failed := 1 } :=
  failure_isolation ["u1", "u2", "u3", "u4", "u5"]
    [true, true, false, true, true] id rfl (List.Perm.refl _)

theorem runBatchLoop_completedAt (total : Nat)
    (rs : List (PageId × Bool)) (okS doneS : String) :
    (runBatchLoop total rs okS doneS).completedAtSet = true := rfl

theorem runBatchLoop_project_iff (total : Nat)
    (rs : List (PageId × Bool)) (okS doneS : String) :
    ((runBatchLoop total rs okS doneS).projectStatus = some doneS ↔
      countFalse (rs.map Prod.snd) = 0) := by
  rw [runBatchLoop_projectStatus, fanOutFinal_eq]
  by_cases hc : countFalse (rs.map Prod.snd) = 0 <;> simp [hc]

/-- C6: a batch job whose fan-out runs to completion is marked COMPLETED at
the task level even when some units failed; the owning project's status is
advanced to its fully-done state (`DESCRIPTIONS_GENERATED` for the
descriptions job, `COMPLETED` for the images job) exactly when no unit
failed. -/
theorem batch_completed_project_advance_gated
    (pagesD : List PageId) (dataD : List Bool) (schedD : Schedule)
    (hlenD : pagesD.length = dataD.length)
    (hD : FairSchedule schedD (pagesD.zip dataD))
    (pagesI : List PageId) (dataI : List Bool) (schedI : Schedule)
    (hI : FairSchedule schedI (pagesI.zip dataI)) :
    (generate_descriptions_task pagesD dataD schedD).taskStatus =
      TaskStatus.COMPLETED ∧
    ((generate_descriptions_task pagesD dataD schedD).projectStatus =
        some "DESCRIPTIONS_GENERATED" ↔ countFalse dataD = 0) ∧
    (generate_images_task pagesI dataI true schedI).taskStatus =
      TaskStatus.COMPLETED ∧
    ((generate_images_task pagesI dataI true schedI).projectStatus =
        some "COMPLETED" ↔
      countFalse ((pagesI.zip dataI).map Prod.snd) = 0) := by
  have hsndD : (pagesD.zip dataD).map Prod.snd = dataD :=
    List.map_snd_zip pagesD dataD (le_of_eq hlenD.symm)
  have hFD := sched_countP pagesD dataD schedD hD (fun b => !b)
  have hFI := sched_countP pagesI dataI schedI hI (fun b => !b)
  rw [hsndD] at hFD
  rw [generate_descriptions_task_run pagesD dataD schedD hlenD,
    generate_images_task_run pagesI dataI schedI]
  refine ⟨runBatchLoop_taskStatus _ _ _ _, ?_, runBatchLoop_taskStatus _ _ _ _, ?_⟩
  · rw [runBatchLoop_project_iff]
    simp only [countFalse, hFD]
  · rw [runBatchLoop_project_iff]
    simp only [countFalse, hFI]

theorem batch_completed_project_advance_gated_witness :
    (generate_descriptions_task ["a", "b"] [true, false] id).taskStatus =
      TaskStatus.COMPLETED ∧
    ((generate_descriptions_task ["a", "b"] [true, false] id).projectStatus =
        some "DESCRIPTIONS_GENERATED" ↔ countFalse [true, false] = 0) ∧
    (generate_images_task ["a", "b"] [true, true] true id).taskStatus =
      TaskStatus.COMPLETED ∧
    ((generate_images_task ["a", "b"] [true, true] true id).projectStatus =
        some "COMPLETED" ↔
      countFalse ((List.zip ["a", "b"] [true, true]).map Prod.snd) = 0) :=
  batch_completed_project_advance_gated ["a", "b"] [true, false] id rfl
    (List.Perm.refl _) ["a", "b"] [true, true] id (List.Perm.refl _)

/-- C7: every run of a batch task ends with the task record in a terminal
status (COMPLETED or FAILED, never left in PROCESSING) and with
`completed_at` written; in particular an exception thrown before any
per-page work — the page-count precondition of the descriptions task, or
the missing-template check of the images task — marks the task FAILED with
the captured error message and performs no per-page work (no progress
snapshot, no page write, no project update). -/
theorem work_fn_failure_marks_task_failed
    (pagesD : List PageId) (dataD : List Bool) (schedD : Schedule)
    (pagesI : List PageId) (dataI : List Bool) (tI : Bool)
    (schedI : Schedule) :
    ((generate_descriptions_task pagesD dataD schedD).taskStatus =
        TaskStatus.COMPLETED ∨
      (generate_descriptions_task pagesD dataD schedD).taskStatus =
        TaskStatus.FAILED) ∧
    (generate_descriptions_task pagesD dataD schedD).completedAtSet = true ∧
    ((generate_images_task pagesI dataI tI schedI).taskStatus =
        TaskStatus.COMPLETED ∨
      (generate_images_task pagesI dataI tI schedI).taskStatus =
        TaskStatus.FAILED) ∧
    (generate_images_task pagesI dataI tI schedI).completedAtSet = true ∧
    (pagesD.length ≠ dataD.length →
      generate_descriptions_task pagesD dataD schedD =
        { taskStatus := TaskStatus.FAILED
          errorMessage := some "Page count mismatch"
          completedAtSet := true
          snapshots := []
          pageWrites := []
          projectStatus := none }) ∧
    (tI = false →
      generate_images_task pagesI dataI tI schedI =
        { taskStatus := TaskStatus.FAILED
          errorMessage := some "No template image found for project"
          completedAtSet := true
          snapshots := []
          pageWrites := []
          projectStatus := none }) := by
  refine ⟨?_, ?_, ?_, ?_, ?_, ?_⟩
  · by_cases h : pagesD.length = dataD.length
    · rw [generate_descriptions_task_run pagesD dataD schedD h]
      exact Or.inl (runBatchLoop_taskStatus _ _ _ _)
    · simp [generate_descriptions_task, h]
  · by_cases h : pagesD.length = dataD.length
    · rw [generate_descriptions_task_run pagesD dataD schedD h]
      exact runBatchLoop_completedAt _ _ _ _
    · simp [generate_descriptions_task, h]
  · cases tI with
    | false => simp [generate_images_task]
    | true =>
        rw [generate_images_task_run pagesI dataI schedI]
        exact Or.inl (runBatchLoop_taskStatus _ _ _ _)
  · cases tI with
    | false => simp [generate_images_task]
    | true =>
        rw [generate_images_task_run pagesI dataI schedI]
        exact runBatchLoop_completedAt _ _ _ _
  · intro h
    simp [generate_descriptions_task, h]
  · intro h
    subst h
    simp [generate_images_task]

theorem work_fn_failure_marks_task_failed_witness :
    ((generate_descriptions_task ["a"] [] id).taskStatus =
        TaskStatus.COMPLETED ∨
      (generate_descriptions_task ["a"] [] id).taskStatus =
        TaskStatus.FAILED) ∧
    (generate_descriptions_task ["a"] [] id).completedAtSet = true ∧
    ((generate_images_task ["a"] [true] false id).taskStatus =
        TaskStatus.COMPLETED ∨
      (generate_images_task ["a"] [true] false id).taskStatus =
        TaskStatus.FAILED) ∧
    (generate_images_task ["a"] [true] false id).completedAtSet = true ∧
    (List.length ["a"] ≠ List.length ([] : List Bool) →
      generate_descriptions_task ["a"] [] id =
        { taskStatus := TaskStatus.FAILED
          errorMessage := some "Page count mismatch"
          completedAtSet := true
          snapshots := []
          pageWrites := []
          projectStatus := none }) ∧
    (false = false →
      generate_images_task ["a"] [true] false id =
        { taskStatus := TaskStatus.FAILED
          errorMessage := some "No template image found for project"
          completedAtSet := true
          snapshots := []
          pageWrites := []
          projectStatus := none }) :=
  work_fn_failure_marks_task_failed ["a"] [] id ["a"] [true] false id

/-- C9: all progress updates of a fan-out happen in the single fan-in loop
(`for future in as_completed(futures)`), one at a time: the i-th snapshot
written to the task record accounts for exactly i+1 resolved units — no
increment is ever lost — and the final progress is the same for every
completion order of the same units. -/
theorem progress_updates_serialized (t : Nat) (oks : List Bool)
    (pages : List PageId) (pagesData : List Bool) (sched1 sched2 : Schedule)
    (h1 : FairSchedule sched1 (pages.zip pagesData))
    (h2 : FairSchedule sched2 (pages.zip pagesData)) :
    (∀ (i : Nat)
      (h : i < (fanOutSnapshots
        { total := t, completed := 0, failed := 0 } oks).length),
      ((fanOutSnapshots { total := t, completed := 0, failed := 0 } oks).get
          ⟨i, h⟩).completed +
        ((fanOutSnapshots { total := t, completed := 0, failed := 0 } oks).get
          ⟨i, h⟩).failed = i + 1) ∧
    (∀ oks2, oks.Perm oks2 →
      fanOutFinal { total := t, completed := 0, failed := 0 } oks =
        fanOutFinal { total := t, completed := 0, failed := 0 } oks2) ∧
    (generate_descriptions_task pages pagesData sched1).snapshots.getLast? =
      (generate_descriptions_task pages pagesData sched2).snapshots.getLast? := by
  refine ⟨?_, ?_, ?_⟩
  · intro i h
    have := fanOutSnapshots_get oks
      { total := t, completed := 0, failed := 0 } i h
    simpa using this
  · intro oks2 hp
    rw [fanOutFinal_eq, fanOutFinal_eq]
    simp only [countTrue, countFalse, hp.countP_eq]
  · by_cases hlen : pages.length = pagesData.length
    · rw [generate_descriptions_task_run pages pagesData sched1 hlen,
        generate_descriptions_task_run pages pagesData sched2 hlen,
        runBatchLoop_getLast, runBatchLoop_getLast]
      have hT1 := sched_countP pages pagesData sched1 h1 (fun b => b)
      have hF1 := sched_countP pages pagesData sched1 h1 (fun b => !b)
      have hT2 := sched_countP pages pagesData sched2 h2 (fun b => b)
      have hF2 := sched_countP pages pagesData sched2 h2 (fun b => !b)
      simp only [countTrue, countFalse, hT1, hF1, hT2, hF2]
    · simp [generate_descriptions_task, hlen]

theorem progress_updates_serialized_witness :
    (∀ (i : Nat)
      (h : i < (fanOutSnapshots
        { total := 3, completed := 0, failed := 0 } [true, false]).length),
      ((fanOutSnapshots { total := 3, completed := 0, failed := 0 }
          [true, false]).get ⟨i, h⟩).completed +
        ((fanOutSnapshots { total := 3, completed := 0, failed := 0 }
          [true, false]).get ⟨i, h⟩).failed = i + 1) ∧
    (∀ oks2, List.Perm [true, false] oks2 →
      fanOutFinal { total := 3, completed := 0, failed := 0 } [true, false] =
        fanOutFinal { total := 3, completed := 0, failed := 0 } oks2) ∧
    (generate_descriptions_task ["a"] [true] id).snapshots.getLast? =
      (generate_descriptions_task ["a"] [true] id).snapshots.getLast? :=
  progress_updates_serialized 3 [true, false] ["a"] [true] id id
    (List.Perm.refl _) (List.Perm.refl _)

theorem countTrue_add_countFalse (l : List Bool) :
    countTrue l + countFalse l = l.length := by
  induction l with
  | nil => rfl
  | cons b rest ih =>
      cases b <;> simp [countTrue, countFalse, List.countP_cons] at ih ⊢ <;>
        omega

/-- C10 (amended): the images batch job runs no page-count precondition:
its units are the zip of the stored pages with the flattened outline, so
only `min(len(pages), len(flattened))` units run while `progress.total`
stays `len(pages)`, and the job is still marked COMPLETED; the final
`completed + failed` equals that minimum, which is strictly below `total`
when the flattened outline is shorter than the page list and equal to
`total` when it is at least as long. -/
theorem images_task_no_count_precondition
    (pages : List PageId) (pagesData : List Bool) (sched : Schedule)
    (hs : FairSchedule sched (pages.zip pagesData)) :
    (generate_images_task pages pagesData true sched).taskStatus =
      TaskStatus.COMPLETED ∧
    (generate_images_task pages pagesData true sched).pageWrites.length =
      min pages.length pagesData.length ∧
    ∃ pfin,
      (generate_images_task pages pagesData true sched).snapshots.getLast? =
        some pfin ∧
      pfin.total = pages.length ∧
      pfin.completed + pfin.failed = min pages.length pagesData.length ∧
      (pagesData.length < pages.length →
        pfin.completed + pfin.failed < pfin.total) ∧
      (pages.length ≤ pagesData.length →
        pfin.completed + pfin.failed = pfin.total) := by
  have hulen : (sched (pages.zip pagesData)).length =
      min pages.length pagesData.length := by
    rw [hs.length_eq, List.length_zip]
  rw [generate_images_task_run pages pagesData sched]
  refine ⟨runBatchLoop_taskStatus _ _ _ _, ?_, ?_⟩
  · rw [runBatchLoop_pageWrites, List.length_map, hulen]
  · refine ⟨_, runBatchLoop_getLast _ _ _ _, rfl, ?_, ?_, ?_⟩
    · rw [countTrue_add_countFalse, List.length_map, hulen]
    · intro hlt
      rw [countTrue_add_countFalse, List.length_map, hulen]
      show pages.length ⊓ pagesData.length < pages.length
      omega
    · intro hle
      rw [countTrue_add_countFalse, List.length_map, hulen]
      show pages.length ⊓ pagesData.length = pages.length
      omega

theorem images_task_no_count_precondition_witness :
    (generate_images_task ["a", "b", "c"] [true, false] true id).taskStatus =
      TaskStatus.COMPLETED ∧
    (generate_images_task ["a", "b", "c"] [true, false] true id).pageWrites.length =
      min 3 2 ∧
    (∃ pfin,
      (generate_images_task ["a", "b", "c"] [true, false] true id).snapshots.getLast? =
        some pfin ∧
      pfin.total = 3 ∧
      pfin.completed + pfin.failed = min 3 2 ∧
      (2 < 3 → pfin.completed + pfin.failed < pfin.total) ∧
      (3 ≤ 2 → pfin.completed + pfin.failed = pfin.total)) :=
  images_task_no_count_precondition ["a", "b", "c"] [true, false] id
    (List.Perm.refl _)

/-- C10 counterexample: with 1 stored page and a 2-entry flattened outline
the lengths differ, yet the completed run has `completed + failed = 1 =
total`, not `completed + failed < total` as the claim states for every
length mismatch. -/
theorem images_task_count_claim_counterexample :
    List.length ["a"] ≠ List.length [true, true] ∧
    (generate_images_task ["a"] [true, true] true id).taskStatus =
      TaskStatus.COMPLETED ∧
    (generate_images_task ["a"] [true, true] true id).snapshots.getLast? =
      some { total := 1, completed := 1, failed := 0 } ∧
    ¬ (1 + 0 < 1) := by
  refine ⟨by decide, rfl, rfl, by decide⟩

/-! ### Flatten/Reconstruct round-trip -/

theorem reconstructAux_cons_truthy_part_some (name cn : String)
    (hname : name ≠ "") (acc : List PageContent) (c : PageContent)
    (rest : List PageSlot) :
    reconstructAux (some cn) acc
        ({ part := some name, content := some c } :: rest) =
      if cn ≠ name then
        OutlineNode.part cn acc :: reconstructAux (some name) ([] ++ [c]) rest
      else reconstructAux (some name) (acc ++ [c]) rest := by
  simp [reconstructAux, partTruthy, hname]

theorem reconstructAux_cons_truthy_part_none (name : String)
    (hname : name ≠ "") (acc : List PageContent) (c : PageContent)
    (rest : List PageSlot) :
    reconstructAux none acc
        ({ part := some name, content := some c } :: rest) =
      reconstructAux (some name) (acc ++ [c]) rest := by
  simp [reconstructAux, partTruthy, hname]

theorem reconstructAux_cons_page (curPart : Option String)
    (acc : List PageContent) (c : PageContent) (rest : List PageSlot) :
    reconstructAux curPart acc ({ part := none, content := some c } :: rest) =
      closeOpenPart curPart acc ++
        (OutlineNode.page c :: reconstructAux none [] rest) := by
  simp [reconstructAux, partTruthy]

theorem reconstructAux_part_run (name : String) (hname : name ≠ "")
    (ps : List PageContent) :
    ∀ (acc : List PageContent) (L : List PageSlot),
      reconstructAux (some name) acc
          ((ps.map fun p => { part := some name, content := some p }) ++ L) =
        reconstructAux (some name) (acc ++ ps) L := by
  induction ps with
  | nil =>
      intro acc L
      simp
  | cons p ps ih =>
      intro acc L
      rw [List.map_cons, List.cons_append,
        reconstructAux_cons_truthy_part_some name name hname acc p _,
        if_neg (by simp)]
      rw [ih (acc ++ [p]) L, List.append_assoc, List.singleton_append]

theorem noAdjacentSameParts_tail {m : String} {ps : List PageContent}
    {rest : List OutlineNode}
    (h : noAdjacentSameParts (OutlineNode.part m ps :: rest) = true) :
    noAdjacentSameParts rest = true ∧ headPartNameNe m rest := by
  cases rest with
  | nil => exact ⟨rfl, trivial⟩
  | cons node r2 =>
      cases node with
      | part m2 qs =>
          simp only [noAdjacentSameParts, Bool.and_eq_true, decide_eq_true_eq]
            at h
          exact ⟨h.2, fun e => h.1 e.symm⟩
      | page c =>
          refine ⟨?_, trivial⟩
          simpa [noAdjacentSameParts] using h

theorem roundtripAux (o : List OutlineNode) :
    partsNonEmpty o = true → partNamesTruthy o = true →
    noAdjacentSameParts o = true →
    (reconstructAux none [] (flatten_outline o) = o ∧
      ∀ (cn : String) (acc : List PageContent), headPartNameNe cn o →
        reconstructAux (some cn) acc (flatten_outline o) =
          OutlineNode.part cn acc :: o) := by
  induction o with
  | nil =>
      intro _ _ _
      exact ⟨rfl, fun cn acc _ => rfl⟩
  | cons node rest ih =>
      intro hne hname hadj
      cases node with
      | page c =>
          have hne2 : partsNonEmpty rest = true := by
            simpa [partsNonEmpty] using hne
          have hname2 : partNamesTruthy rest = true := by
            simpa [partNamesTruthy] using hname
          have hadj2 : noAdjacentSameParts rest = true := by
            cases rest with
            | nil => rfl
            | cons n2 r2 =>
                cases n2 <;> simpa [noAdjacentSameParts] using hadj
          obtain ⟨ihmain, _⟩ := ih hne2 hname2 hadj2
          constructor
          · show reconstructAux none []
              ({ part := none, content := some c } :: flatten_outline rest) =
              OutlineNode.page c :: rest
            rw [reconstructAux_cons_page, ihmain]
            rfl
          · intro cn acc _
            show reconstructAux (some cn) acc
              ({ part := none, content := some c } :: flatten_outline rest) =
              OutlineNode.part cn acc :: OutlineNode.page c :: rest
            rw [reconstructAux_cons_page, ihmain]
            rfl
      | part m ps =>
          cases ps with
          | nil => simp [partsNonEmpty, List.isEmpty] at hne
          | cons p ps2 =>
              have hne2 : partsNonEmpty rest = true := by
                simpa [partsNonEmpty] using hne
              have hm : m ≠ "" ∧ partNamesTruthy rest = true := by
                simpa [partNamesTruthy] using hname
              obtain ⟨hadj2, hhead⟩ := noAdjacentSameParts_tail hadj
              obtain ⟨_, ihpart⟩ := ih hne2 hm.2 hadj2
              have hrun :
                  reconstructAux (some m) ([] ++ [p])
                      ((ps2.map fun q =>
                        ({ part := some m, content := some q } : PageSlot)) ++
                        flatten_outline rest) =
                    OutlineNode.part m (p :: ps2) :: rest := by
                rw [reconstructAux_part_run m hm.1 ps2 ([] ++ [p])
                  (flatten_outline rest)]
                have : ([] ++ [p]) ++ ps2 = p :: ps2 := by simp
                rw [this]
                exact ihpart m (p :: ps2) hhead
              constructor
              · show reconstructAux none []
                  (({ part := some m, content := some p } : PageSlot) ::
                    ((ps2.map fun q =>
                      ({ part := some m, content := some q } : PageSlot)) ++
                      flatten_outline rest)) =
                  OutlineNode.part m (p :: ps2) :: rest
                rw [reconstructAux_cons_truthy_part_none m hm.1]
                simpa using hrun
              · intro cn acc hcn
                have hcn2 : cn ≠ m := fun e => hcn e.symm
                show reconstructAux (some cn) acc
                  (({ part := some m, content := some p } : PageSlot) ::
                    ((ps2.map fun q =>
                      ({ part := some m, content := some q } : PageSlot)) ++
                      flatten_outline rest)) =
                  OutlineNode.part cn acc :: OutlineNode.part m (p :: ps2) ::
                    rest
                rw [reconstructAux_cons_truthy_part_some m cn hm.1,
                  if_pos hcn2, hrun]

/-- C3 (amended): for every outline in which every Part group is non-empty,
every part name is a non-empty string, and no two directly consecutive Part
groups share the same name, reconstructing the flattened page list returns
a structurally equal outline: `Reconstruct(Flatten(o)) = o`. -/
theorem reconstruct_flatten_roundtrip (o : List OutlineNode)
    (hne : partsNonEmpty o = true) (hname : partNamesTruthy o = true)
    (hadj : noAdjacentSameParts o = true) :
    reconstruct_outline_from_pages (flatten_outline o) = o :=
  (roundtripAux o hne hname hadj).1

theorem reconstruct_flatten_roundtrip_witness :
    partsNonEmpty
        [OutlineNode.page ⟨"Intro", ["a"]⟩,
         OutlineNode.part "Body" [⟨"P1", ["b"]⟩, ⟨"P2", ["c"]⟩],
         OutlineNode.part "End" [⟨"P3", []⟩]] = true ∧
    reconstruct_outline_from_pages
        (flatten_outline
          [OutlineNode.page ⟨"Intro", ["a"]⟩,
           OutlineNode.part "Body" [⟨"P1", ["b"]⟩, ⟨"P2", ["c"]⟩],
           OutlineNode.part "End" [⟨"P3", []⟩]]) =
      [OutlineNode.page ⟨"Intro", ["a"]⟩,
       OutlineNode.part "Body" [⟨"P1", ["b"]⟩, ⟨"P2", ["c"]⟩],
       OutlineNode.part "End" [⟨"P3", []⟩]] :=
  ⟨by decide,
    reconstruct_flatten_roundtrip
      [OutlineNode.page ⟨"Intro", ["a"]⟩,
       OutlineNode.part "Body" [⟨"P1", ["b"]⟩, ⟨"P2", ["c"]⟩],
       OutlineNode.part "End" [⟨"P3", []⟩]]
      (by decide) (by decide) (by decide)⟩

/-- C3 counterexample: two outlines satisfying the claim's stated
hypothesis — no part name appears in two non-consecutive groups, and no
empty-group artifacts are involved — that do not round-trip.  Two directly
consecutive groups both named "A" are merged into one group, and a group
whose name is the empty string is dissolved into a bare page. -/
theorem reconstruct_flatten_roundtrip_counterexample :
    (noNonconsecutiveRepeat
        [OutlineNode.part "A" [⟨"p1", []⟩], OutlineNode.part "A" [⟨"p2", []⟩]] =
      true ∧
     partsNonEmpty
        [OutlineNode.part "A" [⟨"p1", []⟩], OutlineNode.part "A" [⟨"p2", []⟩]] =
      true ∧
     reconstruct_outline_from_pages
        (flatten_outline
          [OutlineNode.part "A" [⟨"p1", []⟩],
           OutlineNode.part "A" [⟨"p2", []⟩]]) =
      [OutlineNode.part "A" [⟨"p1", []⟩, ⟨"p2", []⟩]] ∧
     reconstruct_outline_from_pages
        (flatten_outline
          [OutlineNode.part "A" [⟨"p1", []⟩],
           OutlineNode.part "A" [⟨"p2", []⟩]]) ≠
      [OutlineNode.part "A" [⟨"p1", []⟩], OutlineNode.part "A" [⟨"p2", []⟩]]) ∧
    (noNonconsecutiveRepeat [OutlineNode.part "" [⟨"p", []⟩]] = true ∧
     partsNonEmpty [OutlineNode.part "" [⟨"p", []⟩]] = true ∧
     reconstruct_outline_from_pages
        (flatten_outline [OutlineNode.part "" [⟨"p", []⟩]]) =
      [OutlineNode.page ⟨"p", []⟩] ∧
     reconstruct_outline_from_pages
        (flatten_outline [OutlineNode.part "" [⟨"p", []⟩]]) ≠
      [OutlineNode.part "" [⟨"p", []⟩]]) := by
  decide

/-! ### Version ledger theorems -/

theorem insertDesc_length (r : VersionRec) (l : List VersionRec) :
    (insertDesc r l).length = l.length + 1 := by
  induction l with
  | nil => rfl
  | cons x xs ih =>
      by_cases h : x.version_number ≤ r.version_number <;>
        simp [insertDesc, h, ih]

theorem sortByVersionDesc_length (l : List VersionRec) :
    (sortByVersionDesc l).length = l.length := by
  induction l with
  | nil => rfl
  | cons x xs ih =>
      simp only [sortByVersionDesc, List.foldr_cons] at ih ⊢
      rw [insertDesc_length, ih]
      rfl

theorem expectedVersions_fields (pid uid : String) :
    ∀ (ps : List (String × String)) (st : Nat),
      ∀ r ∈ expectedVersions pid uid st ps,
        r.page_id = pid ∧ r.user_id = uid := by
  intro ps
  induction ps with
  | nil =>
      intro st r hr
      simp [expectedVersions] at hr
  | cons x rest ih =>
      intro st r hr
      rw [show expectedVersions pid uid st (x :: rest) =
        { id := x.1, page_id := pid, user_id := uid, version_number := st + 1,
          image_path := x.2, is_current := decide (rest = []) } ::
          expectedVersions pid uid (st + 1) rest from rfl] at hr
      rcases List.mem_cons.mp hr with rfl | hr
      · exact ⟨rfl, rfl⟩
      · exact ih (st + 1) r hr

theorem expectedVersions_ids (pid uid : String) :
    ∀ (ps : List (String × String)) (st : Nat),
      (expectedVersions pid uid st ps).map (fun r => r.id) = ps.map Prod.fst := by
  intro ps
  induction ps with
  | nil => intro st; rfl
  | cons x rest ih =>
      intro st
      simpa [expectedVersions] using ih (st + 1)

theorem expectedVersions_length (pid uid : String)
    (ps : List (String × String)) (st : Nat) :
    (expectedVersions pid uid st ps).length = ps.length := by
  have := congrArg List.length (expectedVersions_ids pid uid ps st)
  simpa using this

theorem expectedVersions_numbers (pid uid : String) :
    ∀ (ps : List (String × String)) (st : Nat),
      (expectedVersions pid uid st ps).map (fun r => r.version_number) =
        List.range' (st + 1) ps.length := by
  intro ps
  induction ps with
  | nil => intro st; rfl
  | cons x rest ih =>
      intro st
      rw [show ((x :: rest).length) = rest.length + 1 from rfl,
        List.range'_succ]
      simpa [expectedVersions] using ih (st + 1)

theorem expectedVersions_currentCount (pid uid : String) :
    ∀ (ps : List (String × String)) (st : Nat),
      (expectedVersions pid uid st ps).countP (fun r => r.is_current) =
        if ps.isEmpty then 0 else 1 := by
  intro ps
  induction ps with
  | nil => intro st; rfl
  | cons x rest ih =>
      intro st
      cases rest with
      | nil => rfl
      | cons y rest2 =>
          have := ih (st + 1)
          simp [expectedVersions, List.countP_cons, List.isEmpty] at this ⊢
          omega

theorem expectedVersions_currentId (pid uid : String) :
    ∀ (ps : List (String × String)) (st : Nat),
      ∀ r ∈ expectedVersions pid uid st ps, r.is_current = true →
        some r.id = (ps.map Prod.fst).getLast? := by
  intro ps
  induction ps with
  | nil =>
      intro st r hr
      simp [expectedVersions] at hr
  | cons x rest ih =>
      intro st r hr hcur
      rw [show expectedVersions pid uid st (x :: rest) =
        { id := x.1, page_id := pid, user_id := uid, version_number := st + 1,
          image_path := x.2, is_current := decide (rest = []) } ::
          expectedVersions pid uid (st + 1) rest from rfl] at hr
      rcases List.mem_cons.mp hr with rfl | hr
      · simp only at hcur
        have hrest : rest = [] := of_decide_eq_true hcur
        subst hrest
        rfl
      · have := ih (st + 1) r hr hcur
        cases rest with
        | nil => simp [expectedVersions] at hr
        | cons y rest2 =>
            rw [show (x :: y :: rest2).map Prod.fst =
              x.1 :: y.1 :: rest2.map Prod.fst from rfl,
              List.getLast?_cons_cons]
            simpa using this

theorem expectedVersions_append (pid uid nid path : String) :
    ∀ (ps : List (String × String)) (st : Nat),
      expectedVersions pid uid st (ps ++ [(nid, path)]) =
        (expectedVersions pid uid st ps).map
          (fun r => { r with is_current := false }) ++
        [{ id := nid, page_id := pid, user_id := uid,
           version_number := st + ps.length + 1, image_path := path,
           is_current := true }] := by
  intro ps
  induction ps with
  | nil => intro st; rfl
  | cons x rest ih =>
      intro st
      rw [show (x :: rest) ++ [(nid, path)] = x :: (rest ++ [(nid, path)])
        from rfl]
      rw [show expectedVersions pid uid st (x :: (rest ++ [(nid, path)])) =
        { id := x.1, page_id := pid, user_id := uid, version_number := st + 1,
          image_path := x.2,
          is_current := decide (rest ++ [(nid, path)] = []) } ::
          expectedVersions pid uid (st + 1) (rest ++ [(nid, path)]) from rfl]
      rw [ih (st + 1)]
      have hile : (rest ++ [(nid, path)] = []) = False := by
        simp
      simp only [expectedVersions, hile, decide_False, List.map_cons,
        List.cons_append, List.length_cons]
      have harith : st + 1 + rest.length + 1 = st + (rest.length + 1) + 1 := by
        omega
      rw [harith]

theorem create_page_image_version_fresh (store : VersionStore)
    (data : VersionRec) (h : ∀ r ∈ store, r.id ≠ data.id) :
    create_page_image_version store data = store ++ [data] := by
  have hany : store.any (fun x => x.id = data.id) = false := by
    rw [List.any_eq_false]
    intro x hx
    simpa using h x hx
  unfold create_page_image_version
  rw [hany]
  simp

theorem set_current_found (store : VersionStore) (pid vid uid : String)
    (h : store.any (fun r => r.id = vid) = true) :
    set_current_page_image_version store pid vid uid =
      Except.ok (store.map (fun r =>
        if r.id = vid then { r with is_current := true }
        else if versionMatches pid uid r then { r with is_current := false }
        else r)) := by
  unfold set_current_page_image_version
  rw [h]
  simp

theorem createVersionAndSetCurrent_fresh (store : VersionStore)
    (pid uid nid path : String)
    (hfresh : ∀ r ∈ store, r.id ≠ nid)
    (hmatch : ∀ r ∈ store, versionMatches pid uid r = true) :
    createVersionAndSetCurrent store pid uid nid path =
      Except.ok (store.map (fun r => { r with is_current := false }) ++
        [{ id := nid, page_id := pid, user_id := uid,
           version_number := store.length + 1, image_path := path,
           is_current := true }]) := by
  have hfilter : store.filter (versionMatches pid uid) = store :=
    List.filter_eq_self.mpr hmatch
  have hlenv : (list_page_image_versions store pid uid).length =
      store.length := by
    unfold list_page_image_versions
    rw [hfilter, sortByVersionDesc_length]
  show set_current_page_image_version
      (create_page_image_version store
        { id := nid, page_id := pid, user_id := uid,
          version_number :=
            (list_page_image_versions store pid uid).length + 1,
          image_path := path, is_current := true }) pid nid uid = _
  rw [hlenv]
  rw [create_page_image_version_fresh store _ (fun r hr => hfresh r hr)]
  rw [set_current_found _ pid nid uid ?hfound]
  case hfound =>
    rw [List.any_append]
    simp
  rw [List.map_append]
  have hmap : store.map (fun r =>
      if r.id = nid then { r with is_current := true }
      else if versionMatches pid uid r then { r with is_current := false }
      else r) = store.map (fun r => { r with is_current := false }) := by
    refine List.map_congr_left ?_
    intro r hr
    rw [if_neg (hfresh r hr), if_pos (hmatch r hr)]
  rw [hmap]
  simp

theorem runVersionCycles_expected (pid uid : String) :
    ∀ (rest pre : List (String × String)),
      ((pre ++ rest).map Prod.fst).Nodup →
      runVersionCycles pid uid rest (expectedVersions pid uid 0 pre) =
        Except.ok (expectedVersions pid uid 0 (pre ++ rest)) := by
  intro rest
  induction rest with
  | nil =>
      intro pre h
      rw [List.append_nil]
      rfl
  | cons x rest2 ih =>
      intro pre h
      have hfresh : ∀ r ∈ expectedVersions pid uid 0 pre, r.id ≠ x.1 := by
        intro r hr he
        have hmem : x.1 ∈ pre.map Prod.fst := by
          rw [← expectedVersions_ids pid uid pre 0]
          exact he ▸ List.mem_map_of_mem (fun r => r.id) hr
        have hnods : (pre.map Prod.fst ++
            (x.1 :: rest2.map Prod.fst)).Nodup := by
          simpa using h
        obtain ⟨-, -, hdisj⟩ := List.nodup_append.mp hnods
        exact hdisj hmem (List.mem_cons_self _ _)
      have hmatch : ∀ r ∈ expectedVersions pid uid 0 pre,
          versionMatches pid uid r = true := by
        intro r hr
        obtain ⟨h1, h2⟩ := expectedVersions_fields pid uid pre 0 r hr
        simp [versionMatches, h1, h2]
      have hstep := createVersionAndSetCurrent_fresh
        (expectedVersions pid uid 0 pre) pid uid x.1 x.2 hfresh hmatch
      have hexp : expectedVersions pid uid 0 (pre ++ [x]) =
          (expectedVersions pid uid 0 pre).map
            (fun r => { r with is_current := false }) ++
          [{ id := x.1, page_id := pid, user_id := uid,
             version_number := (expectedVersions pid uid 0 pre).length + 1,
             image_path := x.2, is_current := true }] := by
        rw [expectedVersions_length pid uid pre 0]
        have := expectedVersions_append pid uid x.1 x.2 pre 0
        simpa using this
      show (match createVersionAndSetCurrent (expectedVersions pid uid 0 pre)
          pid uid x.1 x.2 with
        | Except.ok store2 => runVersionCycles pid uid rest2 store2
        | Except.error e => Except.error e) = _
      rw [hstep, ← hexp]
      have hassoc : pre ++ x :: rest2 = (pre ++ [x]) ++ rest2 := by
        simp
      rw [hassoc]
      exact ih (pre ++ [x]) (by rw [← hassoc]; exact h)

/-- C5: starting from an empty version history for a page, N sequential
create-version + set-current cycles (as performed by the single-image and
edit tasks, each with a fresh version id) leave version numbers exactly
1..N in creation order with no duplicates, and exactly one version has
`is_current = true` — the one last targeted. -/
theorem version_currency (pid uid : String)
    (idPaths : List (String × String))
    (hnd : (idPaths.map Prod.fst).Nodup) (hne : idPaths ≠ []) :
    ∃ s, runVersionCycles pid uid idPaths [] = Except.ok s ∧
      s.map (fun r => r.version_number) = List.range' 1 idPaths.length ∧
      (s.map (fun r => r.version_number)).Nodup ∧
      s.countP (fun r => r.is_current) = 1 ∧
      (∀ r ∈ s, r.is_current = true →
        some r.id = (idPaths.map Prod.fst).getLast?) := by
  have hnums : (expectedVersions pid uid 0 idPaths).map
      (fun r => r.version_number) = List.range' 1 idPaths.length := by
    simpa using expectedVersions_numbers pid uid idPaths 0
  refine ⟨expectedVersions pid uid 0 idPaths, ?_, hnums, ?_, ?_, ?_⟩
  · have := runVersionCycles_expected pid uid idPaths [] (by simpa using hnd)
    simpa using this
  · rw [hnums]
    exact List.nodup_range' 1 idPaths.length
  · rw [expectedVersions_currentCount pid uid idPaths 0]
    cases idPaths with
    | nil => exact absurd rfl hne
    | cons x r => rfl
  · exact expectedVersions_currentId pid uid idPaths 0

theorem version_currency_witness :
    ∃ s, runVersionCycles "p" "u" [("v1", "i1"), ("v2", "i2"), ("v3", "i3")]
        [] = Except.ok s ∧
      s.map (fun r => r.version_number) =
        List.range' 1 (List.length [("v1", "i1"), ("v2", "i2"), ("v3", "i3")]) ∧
      (s.map (fun r => r.version_number)).Nodup ∧
      s.countP (fun r => r.is_current) = 1 ∧
      (∀ r ∈ s, r.is_current = true →
        some r.id =
          (([("v1", "i1"), ("v2", "i2"), ("v3", "i3")]).map
            Prod.fst).getLast?) :=
  version_currency "p" "u" [("v1", "i1"), ("v2", "i2"), ("v3", "i3")]
    (by decide) (by decide)

/-- C8 (amended): `set_current_page_image_version` with a `version_id` that
no document in the version store carries fails with a NotFound error — the
batched update of the missing document aborts the atomic commit, nothing is
written, and the call never silently no-ops.  (A version id that exists but
belongs to a different page is not checked against the given page: the
batch then succeeds, see the counterexample.) -/
theorem set_current_missing_version_notfound (store : VersionStore)
    (pid vid uid : String) (h : ∀ r ∈ store, r.id ≠ vid) :
    set_current_page_image_version store pid vid uid =
      Except.error "NotFound" := by
  have hany : store.any (fun r => r.id = vid) = false := by
    rw [List.any_eq_false]
    intro x hx
    simpa using h x hx
  unfold set_current_page_image_version
  rw [hany]
  simp

theorem set_current_missing_version_notfound_witness :
    set_current_page_image_version
        [{ id := "v2", page_id := "p1", user_id := "u", version_number := 1,
           image_path := "img", is_current := true }] "p1" "v1" "u" =
      Except.error "NotFound" :=
  set_current_missing_version_notfound
    [{ id := "v2", page_id := "p1", user_id := "u", version_number := 1,
       image_path := "img", is_current := true }] "p1" "v1" "u" (by decide)

/-- C8 counterexample: version "v1" exists only for page "p2", so it does
not exist for the given page "p1"; the claim then demands a NotFound error,
but the call succeeds — the batched update only checks document existence,
not the page — and even flips page p2's version to current. -/
theorem set_current_other_page_no_notfound :
    (∀ r ∈ ([{ id := "v1", page_id := "p2", user_id := "u", version_number := 1, image_path := "img", is_current := false }] : VersionStore),
        ¬(r.id = "v1" ∧ r.page_id = "p1")) ∧
    set_current_page_image_version
        [{ id := "v1", page_id := "p2", user_id := "u", version_number := 1,
           image_path := "img", is_current := false }] "p1" "v1" "u" =
      Except.ok
        [{ id := "v1", page_id := "p2", user_id := "u", version_number := 1,
           image_path := "img", is_current := true }] :=
  ⟨by decide, by rfl⟩

/-! ### Reconstruct as the maximal-run grouping rule -/

theorem specMerge_shape (name : String) (c : PageContent) (b : Bool)
    (t : List OutlineNode) :
    ∃ ps gs, specMerge name c b t = OutlineNode.part name ps :: gs := by
  cases b with
  | false => exact ⟨[c], t, rfl⟩
  | true =>
      cases t with
      | nil => exact ⟨[c], [], rfl⟩
      | cons g gs =>
          cases g with
          | part m ps => exact ⟨c :: ps, gs, rfl⟩
          | page c2 => exact ⟨[c], OutlineNode.page c2 :: gs, rfl⟩

theorem flatten_groupRunsSpec :
    ∀ (slots : List PageSlot), (∀ s ∈ slots, s.content ≠ none) →
      flatten_outline (groupRunsSpec slots) = slots := by
  intro slots
  induction slots with
  | nil => intro _; rfl
  | cons s rest ih =>
      intro h
      have hrest : ∀ x ∈ rest, x.content ≠ none :=
        fun x hx => h x (List.mem_cons_of_mem s hx)
      obtain ⟨spart, scontent⟩ := s
      cases scontent with
      | none => exact absurd rfl (h _ (List.mem_cons_self _ _))
      | some c =>
          cases spart with
          | none =>
              show flatten_outline
                (OutlineNode.page c :: groupRunsSpec rest) = _
              rw [show flatten_outline
                  (OutlineNode.page c :: groupRunsSpec rest) =
                { part := none, content := some c } ::
                  flatten_outline (groupRunsSpec rest) from rfl, ih hrest]
          | some name =>
              show flatten_outline (specMerge name c
                (slotContinues name rest) (groupRunsSpec rest)) = _
              cases hcont : slotContinues name rest with
              | false =>
                  rw [show specMerge name c false (groupRunsSpec rest) =
                    OutlineNode.part name [c] :: groupRunsSpec rest from rfl]
                  rw [show flatten_outline
                      (OutlineNode.part name [c] :: groupRunsSpec rest) =
                    { part := some name, content := some c } ::
                      flatten_outline (groupRunsSpec rest) from rfl, ih hrest]
              | true =>
                  cases rest with
                  | nil => simp [slotContinues] at hcont
                  | cons s2 rest2 =>
                      obtain ⟨s2part, s2content⟩ := s2
                      cases s2content with
                      | none =>
                          exact absurd rfl (hrest _ (List.mem_cons_self _ _))
                      | some c2 =>
                          have hs2 : s2part = some name := by
                            simpa [slotContinues] using hcont
                          subst hs2
                          obtain ⟨ps, gs, heq⟩ := specMerge_shape name c2
                            (slotContinues name rest2) (groupRunsSpec rest2)
                          have hg : groupRunsSpec
                              ({ part := some name, content := some c2 } ::
                                rest2) = OutlineNode.part name ps :: gs := heq
                          have htail := ih hrest
                          rw [hg] at htail
                          rw [hg]
                          rw [show specMerge name c true
                              (OutlineNode.part name ps :: gs) =
                            OutlineNode.part name (c :: ps) :: gs from rfl]
                          rw [show flatten_outline
                              (OutlineNode.part name (c :: ps) :: gs) =
                            { part := some name, content := some c } ::
                              flatten_outline (OutlineNode.part name ps :: gs)
                            from rfl, htail]

theorem groupRunsSpec_wf :
    ∀ (slots : List PageSlot), (∀ s ∈ slots, s.content ≠ none) →
      (∀ s ∈ slots, s.part ≠ some "") →
      partsNonEmpty (groupRunsSpec slots) = true ∧
      partNamesTruthy (groupRunsSpec slots) = true ∧
      noAdjacentSameParts (groupRunsSpec slots) = true ∧
      (∀ m ps gs, groupRunsSpec slots = OutlineNode.part m ps :: gs →
        slotContinues m slots = true) := by
  intro slots
  induction slots with
  | nil =>
      intro _ _
      refine ⟨rfl, rfl, rfl, ?_⟩
      intro m ps gs h
      exact absurd h (by simp [groupRunsSpec])
  | cons s rest ih =>
      intro hc hn
      have hcr : ∀ x ∈ rest, x.content ≠ none :=
        fun x hx => hc x (List.mem_cons_of_mem s hx)
      have hnr : ∀ x ∈ rest, x.part ≠ some "" :=
        fun x hx => hn x (List.mem_cons_of_mem s hx)
      obtain ⟨hne, hnm, hadj, hhead⟩ := ih hcr hnr
      obtain ⟨spart, scontent⟩ := s
      cases scontent with
      | none => exact absurd rfl (hc _ (List.mem_cons_self _ _))
      | some c =>
          cases spart with
          | none =>
              have hres : groupRunsSpec
                  ({ part := none, content := some c } :: rest) =
                OutlineNode.page c :: groupRunsSpec rest := rfl
              refine ⟨?_, ?_, ?_, ?_⟩
              · rw [hres]
                simpa [partsNonEmpty] using hne
              · rw [hres]
                simpa [partNamesTruthy] using hnm
              · rw [hres]
                cases hg : groupRunsSpec rest with
                | nil => rfl
                | cons g gs2 =>
                    rw [hg] at hadj
                    cases g <;> simpa [noAdjacentSameParts] using hadj
              · intro m ps gs h
                rw [hres] at h
                exact absurd h (by simp)
          | some name =>
              have hname : name ≠ "" := fun e =>
                hn _ (List.mem_cons_self _ _) (by rw [e])
              cases hcont : slotContinues name rest with
              | false =>
                  have hres : groupRunsSpec
                      ({ part := some name, content := some c } :: rest) =
                    OutlineNode.part name [c] :: groupRunsSpec rest := by
                    show specMerge name c (slotContinues name rest)
                      (groupRunsSpec rest) = _
                    rw [hcont]
                    rfl
                  refine ⟨?_, ?_, ?_, ?_⟩
                  · rw [hres]
                    simpa [partsNonEmpty] using hne
                  · rw [hres]
                    simpa [partNamesTruthy, hname] using hnm
                  · rw [hres]
                    cases hg : groupRunsSpec rest with
                    | nil => rfl
                    | cons g gs2 =>
                        rw [hg] at hadj
                        cases g with
                        | page c2 => simpa [noAdjacentSameParts] using hadj
                        | part m2 qs =>
                            have hm2 : name ≠ m2 := by
                              intro e
                              have hsc := hhead m2 qs gs2 hg
                              rw [← e, hcont] at hsc
                              exact Bool.false_ne_true hsc
                            simp [noAdjacentSameParts, hadj, hm2]
                  · intro m ps gs h
                    rw [hres] at h
                    injection h with h1 h2
                    injection h1 with hm hps
                    subst hm
                    simp [slotContinues]
              | true =>
                  cases rest with
                  | nil => simp [slotContinues] at hcont
                  | cons s2 rest2 =>
                      obtain ⟨ps, gs, hg⟩ :
                          ∃ ps gs, groupRunsSpec (s2 :: rest2) =
                            OutlineNode.part name ps :: gs := by
                        obtain ⟨s2part, s2content⟩ := s2
                        cases s2content with
                        | none =>
                            exact absurd rfl (hcr _ (List.mem_cons_self _ _))
                        | some c2 =>
                            have hs2 : s2part = some name := by
                              simpa [slotContinues] using hcont
                            subst hs2
                            exact specMerge_shape name c2
                              (slotContinues name rest2) (groupRunsSpec rest2)
                      have hres : groupRunsSpec
                          ({ part := some name, content := some c } ::
                            s2 :: rest2) =
                        OutlineNode.part name (c :: ps) :: gs := by
                        show specMerge name c (slotContinues name (s2 :: rest2))
                          (groupRunsSpec (s2 :: rest2)) = _
                        rw [hcont, hg]
                        rfl
                      rw [hg] at hne hnm hadj
                      refine ⟨?_, ?_, ?_, ?_⟩
                      · rw [hres]
                        simp only [partsNonEmpty, Bool.and_eq_true]
                          at hne ⊢
                        exact ⟨by simp, hne.2⟩
                      · rw [hres]
                        simp only [partNamesTruthy, Bool.and_eq_true]
                          at hnm ⊢
                        exact hnm
                      · rw [hres]
                        cases gs with
                        | nil => rfl
                        | cons g gs2 =>
                            cases g with
                            | page c2 =>
                                simpa [noAdjacentSameParts] using hadj
                            | part m2 qs =>
                                simp only [noAdjacentSameParts,
                                  Bool.and_eq_true] at hadj ⊢
                                exact hadj
                      · intro m ps2 gs2 h
                        rw [hres] at h
                        injection h with h1 h2
                        injection h1 with hm hps
                        subst hm
                        simp [slotContinues]

/-- C2 (amended): for every page list walked in `order_index` order in
which every page has non-null outline content and no page carries the
empty string as its part name, the code's reconstruction computes exactly
the claimed grouping rule (`groupRunsSpec`): maximal runs of consecutive
pages sharing the same non-null part name accumulate into one Part group,
a page with no part is emitted bare, and a part name that reappears
non-consecutively (after a page with a different or null part) starts a
new, separate group — never merged across the gap. -/
theorem reconstruct_groups_maximal_runs (slots : List PageSlot)
    (hcontent : ∀ s ∈ slots, s.content ≠ none)
    (hname : ∀ s ∈ slots, s.part ≠ some "") :
    reconstruct_outline_from_pages slots = groupRunsSpec slots := by
  obtain ⟨hne, hnm, hadj, -⟩ := groupRunsSpec_wf slots hcontent hname
  have h1 := flatten_groupRunsSpec slots hcontent
  have h2 := (roundtripAux (groupRunsSpec slots) hne hnm hadj).1
  rw [h1] at h2
  exact h2

theorem reconstruct_groups_maximal_runs_witness :
    (∀ s ∈ ([⟨some "A", some ⟨"p1", []⟩⟩, ⟨none, some ⟨"p2", []⟩⟩, ⟨some "A", some ⟨"p3", []⟩⟩] : List PageSlot), s.content ≠ none) ∧
    (∀ s ∈ ([⟨some "A", some ⟨"p1", []⟩⟩, ⟨none, some ⟨"p2", []⟩⟩, ⟨some "A", some ⟨"p3", []⟩⟩] : List PageSlot), s.part ≠ some "") ∧
    reconstruct_outline_from_pages
        [⟨some "A", some ⟨"p1", []⟩⟩, ⟨none, some ⟨"p2", []⟩⟩,
         ⟨some "A", some ⟨"p3", []⟩⟩] =
      [OutlineNode.part "A" [⟨"p1", []⟩], OutlineNode.page ⟨"p2", []⟩,
       OutlineNode.part "A" [⟨"p3", []⟩]] :=
  ⟨by decide, by decide,
    (reconstruct_groups_maximal_runs
      [⟨some "A", some ⟨"p1", []⟩⟩, ⟨none, some ⟨"p2", []⟩⟩,
       ⟨some "A", some ⟨"p3", []⟩⟩] (by decide) (by decide)).trans
      (by decide)⟩

/-- C2 counterexample: two page lists on which the claim's universal rule
fails in the code.  Two consecutive pages sharing the non-null part name
`""` (falsy in `if page.part:`) are emitted as bare pages instead of being
accumulated into one Part group; and when the page between two "A"-runs
has a different part (`"B"`) but null outline content it is skipped before
its part is ever looked at, so the reappearing "A" is merged into the
earlier "A" group instead of starting a new, separate one. -/
theorem reconstruct_groups_maximal_runs_counterexample :
    (reconstruct_outline_from_pages
        [⟨some "", some ⟨"pa", []⟩⟩, ⟨some "", some ⟨"pb", []⟩⟩] =
      [OutlineNode.page ⟨"pa", []⟩, OutlineNode.page ⟨"pb", []⟩] ∧
     reconstruct_outline_from_pages
        [⟨some "", some ⟨"pa", []⟩⟩, ⟨some "", some ⟨"pb", []⟩⟩] ≠
      [OutlineNode.part "" [⟨"pa", []⟩, ⟨"pb", []⟩]]) ∧
    (reconstruct_outline_from_pages
        [⟨some "A", some ⟨"pa", []⟩⟩, ⟨some "B", none⟩,
         ⟨some "A", some ⟨"pc", []⟩⟩] =
      [OutlineNode.part "A" [⟨"pa", []⟩, ⟨"pc", []⟩]] ∧
     reconstruct_outline_from_pages
        [⟨some "A", some ⟨"pa", []⟩⟩, ⟨some "B", none⟩,
         ⟨some "A", some ⟨"pc", []⟩⟩] ≠
      [OutlineNode.part "A" [⟨"pa", []⟩],
       OutlineNode.part "A" [⟨"pc", []⟩]]) := by
  decide
